import Mathlib

/-!
# RadioTiker catalog / relay core — shallow embedding and verification

This file embeds the core of the RadioTiker streamer API
(`streamer_api/routes/core.py`, `streamer_api/storage.py`,
`streamer_api/utils.py`, and the scanner fingerprint in
`thin_agent_gui.py`) as executable Lean definitions and proves the
specification's claims about them.

Modelling conventions:
* Python insertion-ordered `dict`s become association lists
  `List (String × α)`; `d[k] = v` is `dictSet` (replace in place,
  else append), `d.get(k)` is `dictGet`.
* Python truthiness of strings / optional values is modelled explicitly
  (`None` and `""` are falsy).
* HTTP calls performed by the relay are modelled by an `Origin` record
  giving the outcome of the probe and of the main fetch (as a function
  of the headers the relay sends); an outcome of `none` stands for a
  raised `requests.RequestException`.
* Python `float` fields (`duration_sec`) are modelled as rationals;
  no claim inspects them.
-/

namespace RadioTiker

/-- `d.get(k)` on an insertion-ordered Python dict with string keys. -/
def dictGet {α : Type} (m : List (String × α)) (k : String) : Option α :=
  match m with
  | [] => none
  | (k', v) :: rest => if k' = k then some v else dictGet rest k

/-- `d[k] = v` on an insertion-ordered Python dict: replace the value in
place when the key is present, otherwise append the new pair. -/
def dictSet {α : Type} (m : List (String × α)) (k : String) (v : α) :
    List (String × α) :=
  match m with
  | [] => [(k, v)]
  | (k', v') :: rest =>
      if k' = k then (k', v) :: rest else (k', v') :: dictSet rest k v

/-- The key sequence of a Python dict. -/
def dictKeys {α : Type} (m : List (String × α)) : List String :=
  m.map Prod.fst

/-- Python truthiness of an optional string (`None` and `""` are falsy). -/
def pyTruthyStr (o : Option String) : Bool :=
  match o with
  | none => false
  | some s => s != ""

/-- Python truthiness of an `Optional[bool]` (`None` is falsy). -/
def pyTruthyBool (o : Option Bool) : Bool :=
  match o with
  | none => false
  | some b => b

/-- `x or d` for an optional int `x` (`None` and `0` are falsy). -/
def pyIntOr (v : Option Int) (d : Int) : Int :=
  match v with
  | none => d
  | some n => if n = 0 then d else n

/-- `o or d` on an optional string (`None` and `""` fall back to `d`). -/
def pyOrStr (o : Option String) (d : String) : String :=
  match o with
  | none => d
  | some s => if s = "" then d else s

/-- Python `s.rstrip("/")`: drop every trailing `'/'`. -/
def pyRstripSlash (s : String) : String :=
  String.mk ((s.data.reverse.dropWhile (fun c => c = '/')).reverse)

/-- Python `s.lstrip("/")`: drop every leading `'/'`. -/
def pyLstripSlash (s : String) : String :=
  String.mk (s.data.dropWhile (fun c => c = '/'))

/-- `models.py` `Track` (pydantic model).  `duration_sec` is a Python
float, modelled as a rational. -/
structure Track where
  title : Option String := none
  artist : Option String := none
  album : Option String := none
  path : Option String := none
  rel_path : Option String := none
  file_size : Option Int := none
  mtime : Option Int := none
  duration_sec : Option Rat := none
  track_id : String
deriving DecidableEq, Repr

/-- `models.py` `ScanPayload`. -/
structure ScanPayload where
  user_id : String
  library : List Track
  library_version : Option Int := none
  replace : Option Bool := some false
deriving DecidableEq, Repr

/-- The per-user library state held in `LIBS` (well-formed shape:
`tracks`, `version`, `_cleared_for`). -/
structure Lib where
  tracks : List (String × Track)
  version : Int
  cleared_for : Int
deriving DecidableEq, Repr

/-- The fresh library `storage.load_lib` builds when nothing (valid) is
persisted: `tracks = dict(), version = now, _cleared_for = 0`. -/
def freshLib (now : Int) : Lib :=
  { tracks := [], version := now, cleared_for := 0 }

/-- The per-track normalisation step of `submit_scan`:
`if d.get("rel_path"): d["rel_path"] = normalize_rel_path(d["rel_path"])`.
The percent-encoding normalisation `normalize_rel_path` of `utils.py` is
abstracted as the parameter `norm`; every theorem below holds for every
`norm`, in particular for the real one. -/
def scanTrack (norm : String → String) (t : Track) : Track :=
  match t.rel_path with
  | none => t
  | some r => if r = "" then t else { t with rel_path := some (norm r) }

/-- The upsert loop of `submit_scan`:
`for t in payload.library: ... tracks[d["track_id"]] = d`. -/
def upsertAll (norm : String → String) (ts : List Track)
    (m : List (String × Track)) : List (String × Track) :=
  ts.foldl (fun acc t =>
    let d := scanTrack norm t
    dictSet acc d.track_id d) m

/-- The session version of `submit_scan`:
`int(payload.library_version or int(time.time()))`. -/
def sessionVer (p : ScanPayload) (now : Int) : Int :=
  pyIntOr p.library_version now

/-- The guard of the destructive clear in `submit_scan`:
`payload.replace and lib.get("_cleared_for") != session_ver`. -/
def submitClears (p : ScanPayload) (lib : Lib) (now : Int) : Bool :=
  pyTruthyBool p.replace && lib.cleared_for != sessionVer p now

/-- `routes/core.py` `submit_scan`, acting on the loaded library state.
Clears once per session version when `replace` is truthy, upserts every
batch track by `track_id`, and sets `version = session_ver`. -/
def submit_scan (norm : String → String) (p : ScanPayload) (lib : Lib)
    (now : Int) : Lib :=
  let ver := sessionVer p now
  let tracks0 := if submitClears p lib now then [] else lib.tracks
  let cleared := if submitClears p lib now then ver else lib.cleared_for
  { tracks := upsertAll norm p.library tracks0,
    version := ver,
    cleared_for := cleared }

/-- The last value the batch writes for a given key, if any: the batch
entry with this `track_id` that survives the upsert loop. -/
def lastWrite (norm : String → String) (ts : List Track) (k : String) :
    Option Track :=
  match ts with
  | [] => none
  | t :: rest =>
      match lastWrite norm rest k with
      | some d => some d
      | none =>
          let d := scanTrack norm t
          if d.track_id = k then some d else none

/-- The keys the upsert loop appends to a dict whose key sequence is
`ks`, in order of first occurrence. -/
def newKeys (norm : String → String) (ts : List Track) (ks : List String) :
    List String :=
  match ts with
  | [] => []
  | t :: rest =>
      let k := (scanTrack norm t).track_id
      if k ∈ ks then newKeys norm rest ks
      else k :: newKeys norm rest (ks ++ [k])

/-- Parsed JSON values (`json.loads` results).  JSON numbers are
modelled as integers; no claim inspects fractional values. -/
inductive JVal where
  | null : JVal
  | bool (b : Bool) : JVal
  | num (n : Int) : JVal
  | str (s : String) : JVal
  | arr (xs : List JVal) : JVal
  | obj (kvs : List (String × JVal)) : JVal
deriving BEq, Repr

/-- `"tracks" in obj` for a parsed JSON object. -/
def jHasKey (kvs : List (String × JVal)) (k : String) : Bool :=
  kvs.any (fun p => p.1 == k)

/-- Whether a parsed JSON value carries a `"tracks"` key whose value is
itself a mapping (a JSON object). -/
def jHasTracksMapping (v : JVal) : Bool :=
  match v with
  | JVal.obj kvs =>
      kvs.any (fun p => p.1 == "tracks" &&
        (match p.2 with | JVal.obj _ => true | _ => false))
  | _ => false

/-- The key sequence of a parsed JSON value (empty unless it is an
object). -/
def jTopKeys (v : JVal) : List String :=
  match v with
  | JVal.obj kvs => kvs.map Prod.fst
  | _ => []

/-- The fresh library as the raw dict `load_lib` builds:
the keys `tracks` (empty dict), `version` (now), `_cleared_for` (0). -/
def freshLibJ (now : Int) : JVal :=
  JVal.obj [("tracks", JVal.obj []), ("version", JVal.num now),
            ("_cleared_for", JVal.num 0)]

/-- `storage.load_lib` for one user.  `cached` is the user's entry in the
in-memory `LIBS` dict; `fileExists` whether the persisted file exists;
`parsed` the outcome of `json.loads` on its text (`none` when parsing
raises).  The `try/except` absorbs every failure: the function is total
and never propagates an error. -/
def load_lib (cached : Option JVal) (fileExists : Bool)
    (parsed : Option JVal) (now : Int) : JVal :=
  match cached with
  | some l => l
  | none =>
      if fileExists then
        match parsed with
        | some (JVal.obj kvs) =>
            if jHasKey kvs "tracks" then JVal.obj kvs else freshLibJ now
        | _ => freshLibJ now
      else freshLibJ now

/-- `storage._safe_name`: keep only the characters that are alphanumeric
or one of `-`, `_`, `.`.  Python's Unicode-aware `str.isalnum` is the
parameter `alnum`; every theorem below holds for every `alnum` with
`alnum '/' = false`, which is true of Python's (`'/'` is punctuation). -/
def safe_name (alnum : Char → Bool) (s : String) : String :=
  String.mk (s.data.filter (fun ch =>
    alnum ch || (ch = '-' || ch = '_' || ch = '.')))

/-- The file name `storage.lib_path` places under `DATA_DIR`. -/
def lib_file_name (alnum : Char → Bool) (user_id : String) : String :=
  safe_name alnum user_id ++ ".json"

/-- The file name `storage.agent_path` places under `DATA_DIR`. -/
def agent_file_name (alnum : Char → Bool) (user_id : String) : String :=
  safe_name alnum user_id ++ ".agent.json"

/-- The per-user agent state held in `AGENTS` (`last_seen` defaults to 0
on load and is volatile). -/
structure AgentState where
  base_url : Option String
  last_seen : Int
deriving DecidableEq, Repr

/-- What one `agent_announce` call produces: the new in-memory state,
the dict written to the agent file (if any), and the response fields. -/
structure AnnounceResult where
  mem : AgentState
  diskWrite : Option (List (String × Option String))
  resp_base : String
  persisted : Bool
deriving Repr

/-- `routes/core.py` `agent_announce` acting on the loaded agent state
`st`.  Normalises the URL, refreshes `last_seen` in memory, and calls
`save_agent_stable` (which writes only the dict
`base_url := st.get("base_url")`) exactly when the normalised URL
differs from the stored one. -/
def agent_announce (st : AgentState) (payload_base : String) (now : Int) :
    AnnounceResult :=
  let newBase := pyRstripSlash payload_base
  let changed := st.base_url != some newBase
  { mem := { base_url := some newBase, last_seen := now },
    diskWrite := if changed then some [("base_url", some newBase)] else none,
    resp_base := newBase,
    persisted := changed }

/-- HTTP method of a relay request. -/
inductive Method where
  | get : Method
  | head : Method
deriving DecidableEq, Repr

/-- An HTTP response from the origin (status plus headers, as visible
through `requests`' case-insensitive header dict). -/
structure HttpResp where
  status : Nat
  headers : List (String × String)
deriving DecidableEq, Repr

/-- Python `str.lower()` (on the ASCII strings that appear in HTTP
header names and media types). -/
def strLower (s : String) : String :=
  String.mk (s.data.map (fun c =>
    if 65 ≤ c.toNat && c.toNat ≤ 90 then Char.ofNat (c.toNat + 32) else c))

/-- Whether the first char list is a prefix of the second. -/
def charsStart : List Char → List Char → Bool
  | [], _ => true
  | _ :: _, [] => false
  | a :: as, b :: bs => a == b && charsStart as bs

/-- Python `s.startswith(pre)`. -/
def strStartsWith (s pre : String) : Bool :=
  charsStart pre.data s.data

/-- `requests` case-insensitive `resp.headers.get(k)`. -/
def hGet (hs : List (String × String)) (k : String) : Option String :=
  (hs.find? (fun p => strLower p.1 == strLower k)).map Prod.snd

/-- The origin file server's observable behaviour during one relay
request: the outcome of the `HEAD` probe (sent with `Range: bytes=0-0`)
and of the main fetch as a function of the headers the relay sends.
`none` stands for a raised `requests.RequestException`. -/
structure Origin where
  probe : Option HttpResp
  fetch : List (String × String) → Option HttpResp

/-- `utils.build_stream_url`: join the agent's `base_url` with the
track's stored `rel_path`; `None` when either is absent or empty. -/
def build_stream_url (agentBase : Option String) (t : Track) :
    Option String :=
  if pyTruthyStr agentBase && pyTruthyStr t.rel_path then
    some (pyRstripSlash (agentBase.getD "") ++ "/" ++
          pyLstripSlash (t.rel_path.getD ""))
  else none

/-- The relay's judgement of upstream range capability from the probe
outcome: partial-content status, `Accept-Ranges: bytes`, or a truthy
`Content-Range` header; a probe exception is absorbed as `false`. -/
def upstreamAcceptsRanges (probe : Option HttpResp) : Bool :=
  match probe with
  | none => false
  | some r =>
      r.status == 206 ||
      strLower ((hGet r.headers "Accept-Ranges").getD "") == "bytes" ||
      pyTruthyStr (hGet r.headers "Content-Range")

/-- The headers the relay sends upstream on the main fetch: the base
`User-Agent` dict plus the decided `Range` header — the client's when
truthy, else the synthetic full range when the origin is judged
range-capable (`bytes=0-` for GET, `bytes=0-0` for HEAD), else none. -/
def relayUpstreamHeaders (method : Method) (clientRange : Option String)
    (uar : Bool) : List (String × String) :=
  let base := [("User-Agent", "RadioTiker-Relay/0.3")]
  match method with
  | Method.get =>
      if pyTruthyStr clientRange then dictSet base "Range" (clientRange.getD "")
      else if uar then dictSet base "Range" "bytes=0-"
      else base
  | Method.head =>
      if pyTruthyStr clientRange then dictSet base "Range" (clientRange.getD "")
      else if uar then dictSet base "Range" "bytes=0-0"
      else base

/-- The header allow-list the relay copies from the origin response. -/
def passthroughKeys : List String :=
  ["Content-Type", "Content-Length", "Content-Range", "Accept-Ranges",
   "Cache-Control", "ETag", "Last-Modified"]

/-- The passthrough header dict: each allow-listed header with a truthy
value, copied in order. -/
def passthroughHeaders (uh : List (String × String)) :
    List (String × String) :=
  passthroughKeys.foldl (fun acc k =>
    match hGet uh k with
    | some v => if v = "" then acc else dictSet acc k v
    | none => acc) []

/-- The response headers the relay returns downstream: the passthrough
dict plus `Access-Control-Allow-Origin: *`, a defaulted
`Cache-Control: no-store`, and `Connection: close`. -/
def relayResponseHeaders (uh : List (String × String)) :
    List (String × String) :=
  let p := passthroughHeaders uh
  let p := dictSet p "Access-Control-Allow-Origin" "*"
  let p := if (dictGet p "Cache-Control").isSome then p
           else dictSet p "Cache-Control" "no-store"
  dictSet p "Connection" "close"

/-- Whether the origin's declared content type makes the relay redirect
into the transcode path: FLAC, or outside the directly playable
allow-list (`IOS_OK`). -/
def mediaRedirects (media : String) : Bool :=
  let lc := strLower media
  if strStartsWith lc "audio/flac" || strStartsWith lc "audio/x-flac" then
    true
  else
    let iosOk := strStartsWith lc "audio/mpeg" || strStartsWith lc "audio/aac"
      || strStartsWith lc "audio/mp4" || strStartsWith lc "audio/x-m4a"
    !iosOk

/-- What a relay request returns to the client.  `redirectToMp3` is the
302 `RedirectResponse` to `relay_mp3` for the same user and track;
`response` covers both the `HEAD` `Response` (`streamed = false`) and
the GET `StreamingResponse` (`streamed = true`). -/
inductive RelayResult where
  | httpError (status : Nat) (detail : String) : RelayResult
  | redirectToMp3 (status : Nat) : RelayResult
  | response (status : Nat) (headers : List (String × String))
      (media : String) (streamed : Bool) : RelayResult
deriving DecidableEq, Repr

/-- `routes/core.py` `relay` (`GET|HEAD /api/relay/{user_id}/{track_id}`).
`tracks` is the loaded library's track dict, `agentBase` the announced
base URL, `clientRange` the client's `Range` header as starlette
reports it, `origin` the origin server's behaviour. -/
def relay (tracks : List (String × Track)) (agentBase : Option String)
    (method : Method) (clientRange : Option String) (origin : Origin)
    (track_id : String) : RelayResult :=
  match dictGet tracks track_id with
  | none => RelayResult.httpError 404 "Unknown track_id"
  | some track =>
      match build_stream_url agentBase track with
      | none =>
          RelayResult.httpError 503 "Agent offline or base_url/rel_path unknown"
      | some _url =>
          let uar := upstreamAcceptsRanges origin.probe
          let hs := relayUpstreamHeaders method clientRange uar
          match origin.fetch hs with
          | none => RelayResult.httpError 502 "Upstream fetch failed"
          | some upstream =>
              if upstream.status ≥ 400 then
                RelayResult.httpError upstream.status "Upstream returned error"
              else
                let pass := relayResponseHeaders upstream.headers
                let media := pyOrStr (hGet upstream.headers "Content-Type")
                  "application/octet-stream"
                if mediaRedirects media then RelayResult.redirectToMp3 302
                else
                  match method with
                  | Method.head =>
                      RelayResult.response upstream.status pass media false
                  | Method.get =>
                      RelayResult.response upstream.status pass media true

/-- What a `relay_mp3` request returns.  `headResponse` is the
headers-only `Response` (no encoder spawned, no body);
`streamResponse` is the live transcode `StreamingResponse`. -/
inductive Mp3Result where
  | httpError (status : Nat) (detail : String) : Mp3Result
  | headResponse (status : Nat) (headers : List (String × String)) : Mp3Result
  | streamResponse (status : Nat) (headers : List (String × String))
      (media : String) : Mp3Result
deriving DecidableEq, Repr

/-- `routes/core.py` `relay_mp3`
(`GET|HEAD /api/relay-mp3/{user_id}/{track_id}`).  `clientRange` is the
client's `Range` header (the code never reads it); `spawnOk` is whether
`subprocess.Popen` on the ffmpeg command succeeds.  The second component
records whether an encoder process spawn was attempted. -/
def relay_mp3 (tracks : List (String × Track)) (agentBase : Option String)
    (method : Method) (clientRange : Option String) (spawnOk : Bool)
    (track_id : String) : Mp3Result × Bool :=
  match dictGet tracks track_id with
  | none => (Mp3Result.httpError 404 "Unknown track_id", false)
  | some track =>
      match build_stream_url agentBase track with
      | none =>
          (Mp3Result.httpError 503 "Agent offline or base_url/rel_path unknown",
           false)
      | some _url =>
          match method with
          | Method.head =>
              (Mp3Result.headResponse 200
                [("Access-Control-Allow-Origin", "*"),
                 ("Cache-Control", "no-store, must-revalidate"),
                 ("Connection", "close"),
                 ("Content-Type", "audio/mpeg"),
                 ("Accept-Ranges", "none"),
                 ("X-Accel-Buffering", "no"),
                 ("Content-Length", "0")], false)
          | Method.get =>
              if spawnOk then
                (Mp3Result.streamResponse 200
                  [("Access-Control-Allow-Origin", "*"),
                   ("Cache-Control", "no-store, must-revalidate"),
                   ("Connection", "close"),
                   ("Accept-Ranges", "none"),
                   ("X-Accel-Buffering", "no")] "audio/mpeg", true)
              else
                (Mp3Result.httpError 500 "ffmpeg spawn failed", true)

/-- The decimal digit character `d ↦ '0' + d`. -/
def decDigitChar (d : Nat) : Char := Char.ofNat (48 + d)

/-- Python `str(n)` for a nonnegative integer: its decimal numeral. -/
def decStr (n : Nat) : String :=
  if n = 0 then "0"
  else String.mk (((Nat.digits 10 n).reverse).map decDigitChar)

/-- UTF-8 encoding of one scalar value (RFC 3629), bytes as `Nat`. -/
def utf8Char (c : Char) : List Nat :=
  let n := c.toNat
  if n < 128 then [n]
  else if n < 2048 then [192 + n / 64, 128 + n % 64]
  else if n < 65536 then
    [224 + n / 4096, 128 + (n / 64) % 64, 128 + n % 64]
  else
    [240 + n / 262144, 128 + (n / 4096) % 64, 128 + (n / 64) % 64,
     128 + n % 64]

/-- Python `s.encode("utf-8")` (total on valid unicode strings, so the
`"ignore"` error handler never fires). -/
def utf8Bytes (s : String) : List Nat :=
  s.data.flatMap utf8Char

/-- The byte string `_track_id` feeds to SHA-1: the four `h.update`
calls `path.encode`, `b"|"`, `str(size).encode`, `b"|"`,
`str(mtime).encode` concatenated (124 is `'|'`). -/
def trackIdBytes (path : String) (size mtime : Nat) : List Nat :=
  utf8Bytes path ++ 124 :: utf8Bytes (decStr size) ++
    124 :: utf8Bytes (decStr mtime)

/-- Truncate to a 32-bit word. -/
def w32 (n : Nat) : Nat := n % 4294967296

/-- Rotate a 32-bit word left by `b` bits. -/
def rotl (b n : Nat) : Nat := w32 (n * 2 ^ b) + n / 2 ^ (32 - b)

/-- SHA-1 message padding: `0x80`, zeros to 56 mod 64, then the bit
length as an 8-byte big-endian integer. -/
def sha1Pad (msg : List Nat) : List Nat :=
  let len := msg.length
  let zeros := (64 + 56 - (len + 1) % 64) % 64
  let bitLen := 8 * len
  msg ++ 128 :: List.replicate zeros 0 ++
    (List.range 8).map (fun i => bitLen / 2 ^ (8 * (7 - i)) % 256)

/-- Split a byte string into 64-byte blocks. -/
def chunk64 : List Nat → List (List Nat)
  | [] => []
  | x :: xs => (x :: xs).take 64 :: chunk64 ((x :: xs).drop 64)
termination_by l => l.length
decreasing_by simp [List.length_drop]; omega

/-- A 64-byte block as 16 big-endian 32-bit words. -/
def words16 : List Nat → List Nat
  | b0 :: b1 :: b2 :: b3 :: rest =>
      (((b0 * 256 + b1) * 256 + b2) * 256 + b3) :: words16 rest
  | _ => []

/-- The SHA-1 message-schedule extension from 16 to 80 words. -/
def sha1Extend (k : Nat) (ws : Array Nat) : Array Nat :=
  match k with
  | 0 => ws
  | k + 1 =>
      let n := ws.size
      let w := rotl 1 (ws.getD (n - 3) 0 ^^^ ws.getD (n - 8) 0 ^^^
        ws.getD (n - 14) 0 ^^^ ws.getD (n - 16) 0)
      sha1Extend k (ws.push w)

/-- The SHA-1 round function. -/
def sha1F (t b c d : Nat) : Nat :=
  if t < 20 then (b &&& c) ||| ((b ^^^ 4294967295) &&& d)
  else if t < 40 then b ^^^ c ^^^ d
  else if t < 60 then (b &&& c) ||| (b &&& d) ||| (c &&& d)
  else b ^^^ c ^^^ d

/-- The SHA-1 round constants. -/
def sha1K (t : Nat) : Nat :=
  if t < 20 then 1518500249
  else if t < 40 then 1859775393
  else if t < 60 then 2400959708
  else 3395469782

/-- One SHA-1 block compression. -/
def sha1Compress (h : Nat × Nat × Nat × Nat × Nat) (block : List Nat) :
    Nat × Nat × Nat × Nat × Nat :=
  let ws := sha1Extend 64 (Array.mk (words16 block))
  let (h0, h1, h2, h3, h4) := h
  let step := fun (st : Nat × Nat × Nat × Nat × Nat) (tw : Nat × Nat) =>
    let (a, b, c, d, e) := st
    let (t, w) := tw
    (w32 (rotl 5 a + sha1F t b c d + e + sha1K t + w), a, rotl 30 b, c, d)
  let (a, b, c, d, e) :=
    (((List.range 80).zip ws.toList).foldl step (h0, h1, h2, h3, h4))
  (w32 (h0 + a), w32 (h1 + b), w32 (h2 + c), w32 (h3 + d), w32 (h4 + e))

/-- A 32-bit word as 4 big-endian bytes. -/
def wordBytes (w : Nat) : List Nat :=
  [w / 16777216 % 256, w / 65536 % 256, w / 256 % 256, w % 256]

/-- SHA-1 of a byte string, as its 20-byte digest. -/
def sha1Digest (msg : List Nat) : List Nat :=
  let (h0, h1, h2, h3, h4) :=
    (chunk64 (sha1Pad msg)).foldl sha1Compress
      (1732584193, 4023233417, 2562383102, 271733878, 3285377520)
  wordBytes h0 ++ wordBytes h1 ++ wordBytes h2 ++ wordBytes h3 ++
    wordBytes h4

/-- A lowercase hex digit. -/
def hexDigit (n : Nat) : Char :=
  if n < 10 then Char.ofNat (48 + n) else Char.ofNat (87 + n)

/-- `hashlib.sha1(...).hexdigest()` of a byte string. -/
def sha1Hex (msg : List Nat) : String :=
  String.mk ((sha1Digest msg).foldr
    (fun b acc => hexDigit (b / 16) :: hexDigit (b % 16) :: acc) [])

/-- `thin_agent_gui.py` `_track_id`: the SHA-1 hex digest of the
separator-delimited `(path, size, mtime)` fingerprint input. -/
def track_id_of (path : String) (size mtime : Nat) : String :=
  sha1Hex (trackIdBytes path size mtime)

/-- Decode a decimal numeral (as characters) back to its value. -/
def decVal (cs : List Char) : Nat :=
  cs.foldl (fun acc c => 10 * acc + (c.toNat - 48)) 0

/-- Decode a decimal numeral (as ASCII bytes) back to its value. -/
def decValBytes (bs : List Nat) : Nat :=
  bs.foldl (fun acc b => 10 * acc + (b - 48)) 0

/-- `o` if it is `some`, else the default `d` (used to state how the
upsert loop's final lookups relate to the batch and the prior dict). -/
def orGet {α : Type} (o : Option α) (d : Option α) : Option α :=
  match o with
  | some x => some x
  | none => d

/-- The `submit-scan` payload of a replace session with a fixed
caller-supplied `library_version`. -/
def replacePayload (u : String) (batch : List Track) (V : Int) :
    ScanPayload :=
  { user_id := u, library := batch, library_version := some V,
    replace := some true }

/-- The track record and origin behaviour of the worked relay example:
the origin answers the main GET with `200`, a known
`Content-Length: 500`, and no `Content-Range` header. -/
def exTrack : Track := { track_id := "t1", rel_path := some "Music/a.mp3" }

/-- Origin whose probe looks range-capable but whose main fetch answers
`200` with `Content-Length: 500` and no `Content-Range`. -/
def exOrigin : Origin :=
  { probe := some ⟨206, [("Accept-Ranges", "bytes")]⟩,
    fetch := fun _ =>
      some ⟨200, [("Content-Type", "audio/mpeg"), ("Content-Length", "500")]⟩ }

/- ------------------------------------------------------------------ -/
/- Theorems                                                           -/
/- ------------------------------------------------------------------ -/

theorem head?_dropWhile_ne (p : Char → Bool) (l : List Char) :
    ∀ x, (l.dropWhile p).head? = some x → p x = false := by
  induction l with
  | nil => intro x h; cases h
  | cons a t ih =>
      intro x h
      by_cases hpa : p a
      · rw [List.dropWhile_cons_of_pos hpa] at h
        exact ih x h
      · rw [List.dropWhile_cons_of_neg hpa] at h
        cases h
        exact Bool.of_not_eq_true hpa

theorem pyRstripSlash_getLast (s : String) :
    (pyRstripSlash s).data.getLast? ≠ some '/' := by
  intro h
  have h' : ((s.data.reverse.dropWhile (fun c => c = '/')).reverse).getLast?
      = some '/' := h
  rw [List.getLast?_reverse] at h'
  have := head?_dropWhile_ne (fun c => c = '/') s.data.reverse '/' h'
  simp at this

theorem pyRstripSlash_decomp (s : String) :
    ∃ k, s.data = (pyRstripSlash s).data ++ List.replicate k '/' := by
  refine ⟨(s.data.reverse.takeWhile (fun c => c = '/')).length, ?_⟩
  have hsplit := List.takeWhile_append_dropWhile
    (p := fun c => c = '/') (l := s.data.reverse)
  have htake : s.data.reverse.takeWhile (fun c => c = '/') =
      List.replicate (s.data.reverse.takeWhile (fun c => c = '/')).length '/' := by
    apply List.eq_replicate_of_mem
    intro b hb
    have := List.mem_takeWhile_imp hb
    simpa using this
  calc s.data = s.data.reverse.reverse := by rw [List.reverse_reverse]
    _ = (s.data.reverse.takeWhile (fun c => c = '/') ++
          s.data.reverse.dropWhile (fun c => c = '/')).reverse := by rw [hsplit]
    _ = (pyRstripSlash s).data ++
          (s.data.reverse.takeWhile (fun c => c = '/')).reverse := by
          rw [List.reverse_append]; rfl
    _ = _ := by rw [htake]; simp

/-- C10: the persisted-file names drop every character that is not
alphanumeric or one of `-`, `_`, `.`; in particular they contain no
path separator, for every alphanumeric predicate that rejects `'/'`
(as Python's Unicode `str.isalnum` does), so no `user_id` can name a
file outside the data directory. -/
theorem safe_name_no_path_separators (alnum : Char → Bool) (s : String)
    (h : alnum '/' = false) :
    (∀ c, c ∈ (safe_name alnum s).data →
        alnum c = true ∨ c = '-' ∨ c = '_' ∨ c = '.')
    ∧ (∀ c, c ∈ (safe_name alnum s).data → c ≠ '/')
    ∧ (∀ c, c ∈ (lib_file_name alnum s).data → c ≠ '/')
    ∧ (∀ c, c ∈ (agent_file_name alnum s).data → c ≠ '/') := by
  have hmem : ∀ c, c ∈ (safe_name alnum s).data →
      alnum c = true ∨ c = '-' ∨ c = '_' ∨ c = '.' := by
    intro c hc
    have hc' : c ∈ s.data.filter (fun ch =>
        alnum ch || (ch = '-' || ch = '_' || ch = '.')) := hc
    have hp := List.of_mem_filter hc'
    simp only [Bool.or_eq_true, decide_eq_true_eq] at hp
    tauto
  have hslash : ∀ c, c ∈ (safe_name alnum s).data → c ≠ '/' := by
    intro c hc hcs
    rcases hmem c hc with h1 | h1 | h1 | h1 <;> subst hcs <;>
      first
        | (rw [h] at h1; cases h1)
        | (cases h1)
  refine ⟨hmem, hslash, ?_, ?_⟩
  · intro c hc
    have : c ∈ (safe_name alnum s).data ++ ".json".data := by
      simpa [lib_file_name] using hc
    rcases List.mem_append.mp this with h1 | h1
    · exact hslash c h1
    · intro hcs; subst hcs; simp at h1
  · intro c hc
    have : c ∈ (safe_name alnum s).data ++ ".agent.json".data := by
      simpa [agent_file_name] using hc
    rcases List.mem_append.mp this with h1 | h1
    · exact hslash c h1
    · intro hcs; subst hcs; simp at h1

/-- C10 witness: at the hostile `user_id` `"../x"` (with the ASCII
alphanumeric predicate, which agrees with Python's on these
characters) the kept name is `"..x"` and contains no separator. -/
theorem safe_name_no_path_separators_witness :
    safe_name Char.isAlphanum "../x" = "..x"
    ∧ (∀ c, c ∈ (safe_name Char.isAlphanum "../x").data → c ≠ '/') :=
  ⟨by decide,
   (safe_name_no_path_separators Char.isAlphanum "../x" (by decide)).2.1⟩

/-- C6: `agent_announce` strips every trailing slash from `base_url`,
unconditionally stamps `last_seen := now` in the in-memory state,
writes the agent file exactly when the normalised `base_url` differs
from the stored one, returns `persisted` equal to that condition, and
any file it writes holds only the `base_url` key — never `last_seen`. -/
theorem agent_announce_spec (st : AgentState) (base : String) (now : Int) :
    (agent_announce st base now).mem.last_seen = now
    ∧ (agent_announce st base now).mem.base_url = some (pyRstripSlash base)
    ∧ ((agent_announce st base now).persisted = true ↔
        st.base_url ≠ some (pyRstripSlash base))
    ∧ (agent_announce st base now).diskWrite.isSome =
        (agent_announce st base now).persisted
    ∧ (∀ w, (agent_announce st base now).diskWrite = some w →
        dictKeys w = ["base_url"]
        ∧ dictGet w "base_url" = some (some (pyRstripSlash base)))
    ∧ (pyRstripSlash base).data.getLast? ≠ some '/'
    ∧ (∃ k, base.data = (pyRstripSlash base).data ++ List.replicate k '/') := by
  refine ⟨rfl, rfl, ?_, ?_, ?_, pyRstripSlash_getLast base,
    pyRstripSlash_decomp base⟩
  · simp [agent_announce]
  · by_cases hc : st.base_url = some (pyRstripSlash base) <;>
      simp [agent_announce, hc]
  · intro w hw
    by_cases hc : st.base_url = some (pyRstripSlash base) <;>
      simp [agent_announce, hc] at hw
    subst hw
    exact ⟨rfl, rfl⟩

/-- C6 witness: a fresh agent state, an announce with two trailing
slashes. -/
theorem agent_announce_spec_witness :
    (agent_announce ⟨none, 0⟩ "http://h:8000//" 42).mem.last_seen = 42
    ∧ (agent_announce ⟨none, 0⟩ "http://h:8000//" 42).persisted = true
    ∧ (agent_announce ⟨none, 0⟩ "http://h:8000//" 42).resp_base
        = "http://h:8000" :=
  ⟨(agent_announce_spec ⟨none, 0⟩ "http://h:8000//" 42).1,
   ((agent_announce_spec ⟨none, 0⟩ "http://h:8000//" 42).2.2.1).mpr
     (by decide),
   by decide⟩

/-- C4 counterexample: a client `Range` header that is present but
empty is not forwarded verbatim — the synthetic range replaces it
(Python truthiness treats `""` as absent). -/
theorem relay_range_forward_counterexample :
    ¬ dictGet (relayUpstreamHeaders Method.get (some "") true) "Range"
        = some "" := by decide

/-- C4 (amended): the upstream `Range` header is the client's when it
is non-empty; otherwise the synthetic `bytes=0-` (GET) or `bytes=0-0`
(HEAD) when the origin is judged range-capable; otherwise absent.  An
empty client `Range` header is treated exactly like a missing one. -/
theorem relay_upstream_range_decision (m : Method) (cr : Option String)
    (uar : Bool) :
    (∀ r, cr = some r → r ≠ "" →
        dictGet (relayUpstreamHeaders m cr uar) "Range" = some r)
    ∧ (pyTruthyStr cr = false → uar = true →
        dictGet (relayUpstreamHeaders m cr uar) "Range" =
          some (if m = Method.get then "bytes=0-" else "bytes=0-0"))
    ∧ (pyTruthyStr cr = false → uar = false →
        dictGet (relayUpstreamHeaders m cr uar) "Range" = none)
    ∧ relayUpstreamHeaders m (some "") uar = relayUpstreamHeaders m none uar
    := by
  refine ⟨?_, ?_, ?_, ?_⟩
  · intro r hr hne
    subst hr
    cases m <;> simp [relayUpstreamHeaders, pyTruthyStr, hne, dictSet, dictGet]
  · intro hcr huar
    subst huar
    cases m <;> simp [relayUpstreamHeaders, hcr, dictSet, dictGet]
  · intro hcr huar
    subst huar
    cases m <;> simp [relayUpstreamHeaders, hcr, dictSet, dictGet]
  · cases m <;> cases uar <;>
      simp [relayUpstreamHeaders, pyTruthyStr]

/-- C4 witness: a concrete non-empty client range is forwarded
verbatim, and without one the GET synthetic range is sent. -/
theorem relay_upstream_range_decision_witness :
    dictGet (relayUpstreamHeaders Method.get (some "bytes=0-99") false)
        "Range" = some "bytes=0-99"
    ∧ dictGet (relayUpstreamHeaders Method.get none true) "Range"
        = some "bytes=0-" :=
  ⟨(relay_upstream_range_decision Method.get (some "bytes=0-99") false).1
      "bytes=0-99" rfl (by decide),
   by
    have h := (relay_upstream_range_decision Method.get none true).2.1
      (by decide) rfl
    simpa using h⟩

/-- C1 (code behaviour at the claimed input): the client asks
`Range: bytes=0-99`; the origin answers the main GET with `200`,
`Content-Length: 500`, and no `Content-Range`.  The relay passes the
`200` through unchanged — it does not rewrite the response to `206`
and synthesizes no `Content-Range: bytes 0-499/500` header. -/
theorem relay_no_206_synthesis :
    relay [("t1", exTrack)] (some "http://origin:8000") Method.get
        (some "bytes=0-99") exOrigin "t1"
      = RelayResult.response 200
          [("Content-Type", "audio/mpeg"), ("Content-Length", "500"),
           ("Access-Control-Allow-Origin", "*"),
           ("Cache-Control", "no-store"), ("Connection", "close")]
          "audio/mpeg" true
    ∧ dictGet
        [("Content-Type", "audio/mpeg"), ("Content-Length", "500"),
         ("Access-Control-Allow-Origin", "*"),
         ("Cache-Control", "no-store"), ("Connection", "close")]
        "Content-Range" = none := by
  constructor
  · decide
  · rfl

/-- C8 counterexample: a persisted value that parses to a dict whose
`"tracks"` value is **not** a mapping is accepted as-is — the code only
checks key presence — so the "malformed file starts empty" claim fails
on it: the loaded catalog is not the fresh one. -/
theorem load_lib_tracks_key_counterexample :
    jHasTracksMapping (JVal.obj [("tracks", JVal.num 5)]) = false
    ∧ load_lib none true (some (JVal.obj [("tracks", JVal.num 5)])) 7
        = JVal.obj [("tracks", JVal.num 5)]
    ∧ jTopKeys (load_lib none true (some (JVal.obj [("tracks", JVal.num 5)])) 7)
        ≠ jTopKeys (freshLibJ 7) := by
  refine ⟨rfl, rfl, ?_⟩
  decide

/-- C8 (amended): for a user with no in-memory state, a persisted file
that fails to parse, or parses to a non-dict, or to a dict without a
`"tracks"` key, loads as the fresh empty catalog
(`tracks = dict(), version = now, _cleared_for = 0`), and no error
reaches the caller (`load_lib` is total).  A dict that has a `"tracks"`
key is accepted as-is, even when that value is not a mapping. -/
theorem load_lib_malformed_fresh (fe : Bool) (parsed : Option JVal)
    (now : Int)
    (h : ∀ kvs, parsed = some (JVal.obj kvs) → jHasKey kvs "tracks" = false) :
    load_lib none fe parsed now = freshLibJ now := by
  cases fe with
  | false => rfl
  | true =>
      cases parsed with
      | none => rfl
      | some v =>
          cases v with
          | obj kvs =>
              have hk := h kvs rfl
              simp [load_lib, hk]
          | null => rfl
          | bool b => rfl
          | num n => rfl
          | str s => rfl
          | arr xs => rfl

/-- C8 witness: unparseable text (a `json.loads` failure) loads as the
fresh catalog. -/
theorem load_lib_malformed_fresh_witness :
    load_lib none true none 3 = freshLibJ 3 :=
  load_lib_malformed_fresh true none 3 (by simp)

/-- C9: the transcode endpoint ignores the client `Range` header (its
result never depends on it and is never a 416); every successful
response carries `Accept-Ranges: none` and the no-cache
`Cache-Control: no-store, must-revalidate`; and for HEAD no encoder is
spawned and the response is a bodiless `200` with `Content-Length: 0`. -/
theorem relay_mp3_ignores_range (tracks : List (String × Track))
    (base : Option String) (m : Method) (cr cr' : Option String)
    (sp : Bool) (tid : String) :
    relay_mp3 tracks base m cr sp tid = relay_mp3 tracks base m cr' sp tid
    ∧ (∀ d b, relay_mp3 tracks base m cr sp tid ≠
        (Mp3Result.httpError 416 d, b))
    ∧ (∀ s hs, (relay_mp3 tracks base m cr sp tid).1 =
          Mp3Result.headResponse s hs →
        s = 200 ∧ dictGet hs "Accept-Ranges" = some "none"
        ∧ dictGet hs "Cache-Control" = some "no-store, must-revalidate"
        ∧ dictGet hs "Content-Length" = some "0"
        ∧ (relay_mp3 tracks base m cr sp tid).2 = false)
    ∧ (∀ s hs med, (relay_mp3 tracks base m cr sp tid).1 =
          Mp3Result.streamResponse s hs med →
        s = 200 ∧ dictGet hs "Accept-Ranges" = some "none"
        ∧ dictGet hs "Cache-Control" = some "no-store, must-revalidate")
    ∧ (m = Method.head → (relay_mp3 tracks base m cr sp tid).2 = false) := by
  rcases ht : dictGet tracks tid with _ | track
  · refine ⟨rfl, ?_, ?_, ?_, ?_⟩ <;>
      simp [relay_mp3, ht]
  · rcases hu : build_stream_url base track with _ | url
    · refine ⟨rfl, ?_, ?_, ?_, ?_⟩ <;>
        simp [relay_mp3, ht, hu]
    · cases m with
      | head =>
          refine ⟨rfl, ?_, ?_, ?_, ?_⟩ <;>
            simp [relay_mp3, ht, hu, dictGet]
      | get =>
          cases sp with
          | false =>
              refine ⟨rfl, ?_, ?_, ?_, ?_⟩ <;>
                simp [relay_mp3, ht, hu]
          | true =>
              refine ⟨rfl, ?_, ?_, ?_, ?_⟩ <;>
                simp [relay_mp3, ht, hu, dictGet]

/-- C9 witness: concrete HEAD and failed-spawn GET requests. -/
theorem relay_mp3_ignores_range_witness :
    relay_mp3 [("t1", exTrack)] (some "http://o") Method.head
        (some "bytes=3-5") true "t1"
      = relay_mp3 [("t1", exTrack)] (some "http://o") Method.head
        none true "t1"
    ∧ (relay_mp3 [("t1", exTrack)] (some "http://o") Method.head
        (some "bytes=3-5") true "t1").2 = false :=
  ⟨(relay_mp3_ignores_range [("t1", exTrack)] (some "http://o") Method.head
      (some "bytes=3-5") none true "t1").1,
   (relay_mp3_ignores_range [("t1", exTrack)] (some "http://o") Method.head
      (some "bytes=3-5") none true "t1").2.2.2.2 rfl⟩

theorem scanTrack_track_id (norm : String → String) (t : Track) :
    (scanTrack norm t).track_id = t.track_id := by
  unfold scanTrack
  cases t.rel_path with
  | none => rfl
  | some r => by_cases hr : r = "" <;> simp [hr]

theorem dictGet_dictSet {α : Type} (m : List (String × α)) (k k' : String)
    (v : α) :
    dictGet (dictSet m k v) k' = if k = k' then some v else dictGet m k' := by
  induction m with
  | nil => simp [dictSet, dictGet]
  | cons p rest ih =>
      obtain ⟨pk, pv⟩ := p
      by_cases hpk : pk = k
      · subst hpk
        by_cases hk' : pk = k' <;> simp [dictSet, dictGet, hk']
      · by_cases hk' : pk = k'
        · have hne : k ≠ k' := fun h => hpk (h ▸ hk')
          have hne' : k' ≠ k := fun h => hne h.symm
          simp [dictSet, dictGet, hpk, hk', hne, hne']
        · simp [dictSet, dictGet, hpk, hk', ih]

theorem dictKeys_dictSet {α : Type} (m : List (String × α)) (k : String)
    (v : α) :
    dictKeys (dictSet m k v) =
      if k ∈ dictKeys m then dictKeys m else dictKeys m ++ [k] := by
  induction m with
  | nil => simp [dictSet, dictKeys]
  | cons p rest ih =>
      obtain ⟨pk, pv⟩ := p
      by_cases hpk : pk = k
      · subst hpk; simp [dictSet, dictKeys]
      · have hk : ¬(k = pk) := fun h => hpk h.symm
        have hstep : dictKeys (dictSet ((pk, pv) :: rest) k v)
            = pk :: dictKeys (dictSet rest k v) := by
          simp [dictSet, hpk, dictKeys]
        rw [hstep, ih]
        by_cases hm : k ∈ dictKeys rest
        · simp only [dictKeys] at hm
          simp [dictKeys, hm, hk]
        · simp only [dictKeys] at hm
          simp [dictKeys, hm, hk]

theorem upsertAll_cons (norm : String → String) (t : Track)
    (ts : List Track) (m : List (String × Track)) :
    upsertAll norm (t :: ts) m =
      upsertAll norm ts
        (dictSet m (scanTrack norm t).track_id (scanTrack norm t)) := rfl

theorem dictGet_upsertAll (norm : String → String) (ts : List Track) :
    ∀ (m : List (String × Track)) (k : String),
      dictGet (upsertAll norm ts m) k =
        orGet (lastWrite norm ts k) (dictGet m k) := by
  induction ts with
  | nil => intro m k; simp [upsertAll, lastWrite, orGet]
  | cons t rest ih =>
      intro m k
      rw [upsertAll_cons, ih]
      cases hlw : lastWrite norm rest k with
      | some d => simp [lastWrite, hlw, orGet]
      | none =>
          simp only [lastWrite, hlw, orGet, dictGet_dictSet]
          by_cases hid : (scanTrack norm t).track_id = k <;> simp [hid]

theorem dictKeys_upsertAll (norm : String → String) (ts : List Track) :
    ∀ m, dictKeys (upsertAll norm ts m) =
      dictKeys m ++ newKeys norm ts (dictKeys m) := by
  induction ts with
  | nil => intro m; simp [upsertAll, newKeys]
  | cons t rest ih =>
      intro m
      rw [upsertAll_cons, ih, dictKeys_dictSet]
      by_cases hm : (scanTrack norm t).track_id ∈ dictKeys m <;>
        simp [newKeys, hm, List.append_assoc]

theorem track_id_mem_newKeys (norm : String → String) (ts : List Track) :
    ∀ (ks : List String) (t : Track), t ∈ ts →
      (scanTrack norm t).track_id ∈ ks ++ newKeys norm ts ks := by
  induction ts with
  | nil => intro ks t ht; cases ht
  | cons a rest ih =>
      intro ks t ht
      by_cases ha : (scanTrack norm a).track_id ∈ ks
      · rcases List.mem_cons.mp ht with h1 | h1
        · subst h1; simp [newKeys, ha]
        · simpa [newKeys, ha] using ih ks t h1
      · rcases List.mem_cons.mp ht with h1 | h1
        · subst h1; simp [newKeys, ha]
        · have h2 := ih (ks ++ [(scanTrack norm a).track_id]) t h1
          rw [List.append_assoc] at h2
          simpa [newKeys, ha] using h2

theorem newKeys_eq_nil (norm : String → String) (ts : List Track) :
    ∀ ks, (∀ t ∈ ts, (scanTrack norm t).track_id ∈ ks) →
      newKeys norm ts ks = [] := by
  induction ts with
  | nil => intro ks _; rfl
  | cons a rest ih =>
      intro ks h
      have ha := h a (List.mem_cons_self a rest)
      simp only [newKeys, if_pos ha]
      exact ih ks (fun t ht => h t (List.mem_cons_of_mem a ht))

theorem nodup_append_newKeys (norm : String → String) (ts : List Track) :
    ∀ ks : List String, ks.Nodup → (ks ++ newKeys norm ts ks).Nodup := by
  induction ts with
  | nil => intro ks h; simpa [newKeys]
  | cons a rest ih =>
      intro ks h
      by_cases ha : (scanTrack norm a).track_id ∈ ks
      · simpa [newKeys, ha] using ih ks h
      · have h2 : (ks ++ [(scanTrack norm a).track_id]).Nodup := by
          simp [List.nodup_append, h, ha]
        have h3 := ih (ks ++ [(scanTrack norm a).track_id]) h2
        simpa [newKeys, ha, List.append_assoc] using h3

theorem dictGet_eq_none_of_not_mem {α : Type} (m : List (String × α))
    (k : String) (h : k ∉ dictKeys m) : dictGet m k = none := by
  induction m with
  | nil => rfl
  | cons p rest ih =>
      obtain ⟨pk, pv⟩ := p
      simp only [dictKeys, List.map_cons, List.mem_cons] at h
      push_neg at h
      have h1 : pk ≠ k := fun hh => h.1 hh.symm
      simp [dictGet, h1, ih h.2]

theorem dict_ext {α : Type} :
    ∀ (m1 m2 : List (String × α)), dictKeys m1 = dictKeys m2 →
      (dictKeys m1).Nodup → (∀ k, dictGet m1 k = dictGet m2 k) →
      m1 = m2 := by
  intro m1
  induction m1 with
  | nil =>
      intro m2 hk _ _
      cases m2 with
      | nil => rfl
      | cons q r2 => simp [dictKeys] at hk
  | cons p r1 ih =>
      intro m2 hk hnd hg
      obtain ⟨pk, pv⟩ := p
      cases m2 with
      | nil => simp [dictKeys] at hk
      | cons q r2 =>
          obtain ⟨qk, qv⟩ := q
          have hk' : pk = qk ∧ dictKeys r1 = dictKeys r2 := by
            simpa [dictKeys] using hk
          have hpq : pk = qk := hk'.1
          subst hpq
          have hnd' : pk ∉ dictKeys r1 ∧ (dictKeys r1).Nodup := by
            simpa [dictKeys] using hnd
          have hv : pv = qv := by
            have := hg pk
            simpa [dictGet] using this
          subst hv
          have htails : ∀ k, dictGet r1 k = dictGet r2 k := by
            intro k
            by_cases hkpk : pk = k
            · subst hkpk
              rw [dictGet_eq_none_of_not_mem r1 pk hnd'.1,
                  dictGet_eq_none_of_not_mem r2 pk (hk'.2 ▸ hnd'.1)]
            · have := hg k
              simpa [dictGet, hkpk] using this
          rw [ih r2 hk'.2 hnd'.2 htails]

theorem upsertAll_idem (norm : String → String) (ts : List Track)
    (m : List (String × Track)) (h : (dictKeys m).Nodup) :
    upsertAll norm ts (upsertAll norm ts m) = upsertAll norm ts m := by
  have hsub : ∀ t ∈ ts,
      (scanTrack norm t).track_id ∈ dictKeys (upsertAll norm ts m) := by
    intro t ht
    rw [dictKeys_upsertAll]
    exact track_id_mem_newKeys norm ts (dictKeys m) t ht
  have hkeys : dictKeys (upsertAll norm ts (upsertAll norm ts m)) =
      dictKeys (upsertAll norm ts m) := by
    rw [dictKeys_upsertAll, newKeys_eq_nil norm ts _ hsub, List.append_nil]
  have hnodup : (dictKeys (upsertAll norm ts (upsertAll norm ts m))).Nodup := by
    rw [hkeys, dictKeys_upsertAll]
    exact nodup_append_newKeys norm ts (dictKeys m) h
  apply dict_ext _ _ hkeys hnodup
  intro k
  rw [dictGet_upsertAll, dictGet_upsertAll]
  cases hlw : lastWrite norm ts k <;> simp [orGet, hlw]

theorem lastWrite_eq_none (norm : String → String) (ts : List Track)
    (k : String) (h : ∀ t ∈ ts, (scanTrack norm t).track_id ≠ k) :
    lastWrite norm ts k = none := by
  induction ts with
  | nil => rfl
  | cons a rest ih =>
      have ha := h a (List.mem_cons_self a rest)
      have hrest := ih (fun t ht => h t (List.mem_cons_of_mem a ht))
      simp [lastWrite, hrest, ha]

/-- C2: a `submit-scan` with `replace = true` and a fixed nonzero
`library_version V`, retried verbatim, leaves exactly the state the
single call left — the retry performs no destructive clear (the
`_cleared_for` marker already equals `V`) and only re-upserts the same
records by `track_id`. -/
theorem submit_scan_replace_retry_idempotent (norm : String → String)
    (u : String) (batch : List Track) (V : Int) (lib : Lib)
    (now1 now2 : Int) (hV : V ≠ 0) (hnd : (dictKeys lib.tracks).Nodup) :
    submit_scan norm (replacePayload u batch V)
        (submit_scan norm (replacePayload u batch V) lib now1) now2
      = submit_scan norm (replacePayload u batch V) lib now1
    ∧ submitClears (replacePayload u batch V)
        (submit_scan norm (replacePayload u batch V) lib now1) now2
      = false := by
  by_cases hc : lib.cleared_for = V
  · have hs1 : submit_scan norm (replacePayload u batch V) lib now1 =
        { tracks := upsertAll norm batch lib.tracks, version := V,
          cleared_for := V } := by
      simp [submit_scan, submitClears, replacePayload, sessionVer,
        pyIntOr, pyTruthyBool, hV, hc]
    have h2 : submitClears (replacePayload u batch V)
        (submit_scan norm (replacePayload u batch V) lib now1) now2
        = false := by
      rw [hs1]
      simp [submitClears, replacePayload, sessionVer, pyIntOr,
        pyTruthyBool, hV]
    refine ⟨?_, h2⟩
    rw [hs1]
    simp [submit_scan, submitClears, replacePayload, sessionVer, pyIntOr,
      pyTruthyBool, hV, upsertAll_idem norm batch lib.tracks hnd]
  · have hs1 : submit_scan norm (replacePayload u batch V) lib now1 =
        { tracks := upsertAll norm batch [], version := V,
          cleared_for := V } := by
      simp [submit_scan, submitClears, replacePayload, sessionVer,
        pyIntOr, pyTruthyBool, hV, hc]
    have h2 : submitClears (replacePayload u batch V)
        (submit_scan norm (replacePayload u batch V) lib now1) now2
        = false := by
      rw [hs1]
      simp [submitClears, replacePayload, sessionVer, pyIntOr,
        pyTruthyBool, hV]
    refine ⟨?_, h2⟩
    rw [hs1]
    have hnil : (dictKeys ([] : List (String × Track))).Nodup := by
      simp [dictKeys]
    simp [submit_scan, submitClears, replacePayload, sessionVer, pyIntOr,
      pyTruthyBool, hV, upsertAll_idem norm batch [] hnil]

/-- C2 witness: the spec's scenario — user `alice`, fresh state, the
same two-track `replace = true, library_version = 100` batch submitted
twice; the final catalog holds 2 tracks, not 4. -/
theorem submit_scan_replace_retry_idempotent_witness :
    submit_scan id
        (replacePayload "alice"
          [{ track_id := "A", rel_path := some "a.mp3" },
           { track_id := "B", rel_path := some "b.mp3" }] 100)
        (submit_scan id
          (replacePayload "alice"
            [{ track_id := "A", rel_path := some "a.mp3" },
             { track_id := "B", rel_path := some "b.mp3" }] 100)
          (freshLib 0) 5) 6
      = submit_scan id
          (replacePayload "alice"
            [{ track_id := "A", rel_path := some "a.mp3" },
             { track_id := "B", rel_path := some "b.mp3" }] 100)
          (freshLib 0) 5
    ∧ (submit_scan id
          (replacePayload "alice"
            [{ track_id := "A", rel_path := some "a.mp3" },
             { track_id := "B", rel_path := some "b.mp3" }] 100)
          (freshLib 0) 5).tracks.length = 2 :=
  ⟨(submit_scan_replace_retry_idempotent id "alice"
      [{ track_id := "A", rel_path := some "a.mp3" },
       { track_id := "B", rel_path := some "b.mp3" }] 100 (freshLib 0) 5 6
      (by decide) (by simp [freshLib, dictKeys])).1,
   by decide⟩

/-- C7: with `replace = false` (or absent), `submit_scan` leaves every
catalog record whose `track_id` is not written by the batch unchanged;
upserting `[A]` and then `[B]` (distinct ids) leaves both present. -/
theorem submit_scan_upsert_frame (norm : String → String)
    (p : ScanPayload) (lib : Lib) (now : Int)
    (hrep : pyTruthyBool p.replace = false) :
    (∀ k, (∀ t ∈ p.library, (scanTrack norm t).track_id ≠ k) →
        dictGet (submit_scan norm p lib now).tracks k
          = dictGet lib.tracks k)
    ∧ (∀ (A B : Track) (u1 u2 : String) (v1 v2 : Option Int)
          (now1 now2 : Int), A.track_id ≠ B.track_id →
        dictGet (submit_scan norm ⟨u2, [B], v2, some false⟩
            (submit_scan norm ⟨u1, [A], v1, some false⟩ lib now1)
            now2).tracks A.track_id = some (scanTrack norm A)
        ∧ dictGet (submit_scan norm ⟨u2, [B], v2, some false⟩
            (submit_scan norm ⟨u1, [A], v1, some false⟩ lib now1)
            now2).tracks B.track_id = some (scanTrack norm B)) := by
  have hframe : ∀ (q : ScanPayload) (l : Lib) (n : Int),
      pyTruthyBool q.replace = false →
      ∀ k, (∀ t ∈ q.library, (scanTrack norm t).track_id ≠ k) →
        dictGet (submit_scan norm q l n).tracks k = dictGet l.tracks k := by
    intro q l n hq k hk
    have hcl : submitClears q l n = false := by
      simp [submitClears, hq]
    simp [submit_scan, hcl]
    rw [dictGet_upsertAll, lastWrite_eq_none norm q.library k hk]
    rfl
  refine ⟨hframe p lib now hrep, ?_⟩
  intro A B u1 u2 v1 v2 now1 now2 hAB
  have hB1 : pyTruthyBool (some false : Option Bool) = false := rfl
  have hgetA : dictGet (submit_scan norm ⟨u1, [A], v1, some false⟩
      lib now1).tracks A.track_id = some (scanTrack norm A) := by
    have hcl : submitClears ⟨u1, [A], v1, some false⟩ lib now1 = false := by
      simp [submitClears, pyTruthyBool]
    simp [submit_scan, hcl]
    rw [dictGet_upsertAll]
    simp [lastWrite, scanTrack_track_id, orGet]
  constructor
  · rw [hframe ⟨u2, [B], v2, some false⟩ _ now2 hB1 A.track_id
      (by intro t ht
          simp only [List.mem_singleton] at ht
          subst ht
          rw [scanTrack_track_id]
          exact fun h => hAB h.symm)]
    exact hgetA
  · have hcl : submitClears ⟨u2, [B], v2, some false⟩
        (submit_scan norm ⟨u1, [A], v1, some false⟩ lib now1) now2
        = false := by
      simp [submitClears, pyTruthyBool]
    simp [submit_scan, hcl]
    rw [dictGet_upsertAll]
    simp [lastWrite, scanTrack_track_id, orGet]

/-- C7 witness: concrete distinct tracks `A`, `B` upserted one after
the other into a fresh catalog are both present afterwards. -/
theorem submit_scan_upsert_frame_witness :
    dictGet (submit_scan id
        ⟨"u", [{ track_id := "B", rel_path := some "b.mp3" }], none,
          some false⟩
        (submit_scan id
          ⟨"u", [{ track_id := "A", rel_path := some "a.mp3" }], none,
            some false⟩ (freshLib 0) 5) 6).tracks "A"
      = some (scanTrack id { track_id := "A", rel_path := some "a.mp3" })
    ∧ dictGet (submit_scan id
        ⟨"u", [{ track_id := "B", rel_path := some "b.mp3" }], none,
          some false⟩
        (submit_scan id
          ⟨"u", [{ track_id := "A", rel_path := some "a.mp3" }], none,
            some false⟩ (freshLib 0) 5) 6).tracks "B"
      = some (scanTrack id { track_id := "B", rel_path := some "b.mp3" }) :=
  (submit_scan_upsert_frame id
      ⟨"u", [{ track_id := "A", rel_path := some "a.mp3" }], none,
        some false⟩
      (freshLib 0) 5 rfl).2
    { track_id := "A", rel_path := some "a.mp3" }
    { track_id := "B", rel_path := some "b.mp3" }
    "u" "u" none none 5 6 (by decide)

/-- C5: the relay fails with exactly these statuses — 404 when the
`track_id` is not in the catalog; 503 when the origin URL cannot be
built; 502 when the origin fetch raises; and the origin's own status
when the origin answers with status ≥ 400 (propagated, not retried).
Every other outcome is a redirect or a streamed/plain response, and a
probe failure alone never produces an error. -/
theorem relay_error_statuses (tracks : List (String × Track))
    (base : Option String) (m : Method) (cr : Option String)
    (origin : Origin) (tid : String) :
    (dictGet tracks tid = none →
      relay tracks base m cr origin tid =
        RelayResult.httpError 404 "Unknown track_id")
    ∧ (∀ t, dictGet tracks tid = some t → build_stream_url base t = none →
        relay tracks base m cr origin tid =
          RelayResult.httpError 503
            "Agent offline or base_url/rel_path unknown")
    ∧ (∀ t u, dictGet tracks tid = some t →
        build_stream_url base t = some u →
        origin.fetch (relayUpstreamHeaders m cr
          (upstreamAcceptsRanges origin.probe)) = none →
        relay tracks base m cr origin tid =
          RelayResult.httpError 502 "Upstream fetch failed")
    ∧ (∀ t u r, dictGet tracks tid = some t →
        build_stream_url base t = some u →
        origin.fetch (relayUpstreamHeaders m cr
          (upstreamAcceptsRanges origin.probe)) = some r →
        r.status ≥ 400 →
        relay tracks base m cr origin tid =
          RelayResult.httpError r.status "Upstream returned error")
    ∧ (∀ s d, relay tracks base m cr origin tid =
          RelayResult.httpError s d →
        s = 404 ∨ s = 503 ∨ s = 502 ∨
        (∃ r, origin.fetch (relayUpstreamHeaders m cr
            (upstreamAcceptsRanges origin.probe)) = some r ∧
          r.status = s ∧ 400 ≤ s)) := by
  rcases ht : dictGet tracks tid with _ | track
  · refine ⟨fun _ => by simp [relay, ht], ?_, ?_, ?_, ?_⟩
    · intro t h; simp [ht] at h
    · intro t u h; simp [ht] at h
    · intro t u r h; simp [ht] at h
    · intro s d h
      simp [relay, ht] at h
      exact Or.inl h.1.symm
  · rcases hu : build_stream_url base track with _ | url
    · refine ⟨fun h => by simp at h, ?_, ?_, ?_, ?_⟩
      · intro t h _
        simp only [ht, Option.some.injEq] at h
        subst h
        simp [relay, ht, hu]
      · intro t u h hu'
        simp only [ht, Option.some.injEq] at h
        subst h
        simp [hu] at hu'
      · intro t u r h hu' _ _
        simp only [ht, Option.some.injEq] at h
        subst h
        simp [hu] at hu'
      · intro s d h
        simp [relay, ht, hu] at h
        exact Or.inr (Or.inl h.1.symm)
    · refine ⟨fun h => by simp at h, ?_, ?_, ?_, ?_⟩
      · intro t h hu'
        simp only [ht, Option.some.injEq] at h
        subst h
        simp [hu] at hu'
      · intro t u h _ hf
        simp only [ht, Option.some.injEq] at h
        subst h
        simp [relay, ht, hu, hf]
      · intro t u r h _ hf hs
        simp only [ht, Option.some.injEq] at h
        subst h
        simp [relay, ht, hu, hf, hs]
      · intro s d h
        rcases hf : origin.fetch (relayUpstreamHeaders m cr
            (upstreamAcceptsRanges origin.probe)) with _ | resp
        · simp [relay, ht, hu, hf] at h
          exact Or.inr (Or.inr (Or.inl h.1.symm))
        · by_cases hs : resp.status ≥ 400
          · simp [relay, ht, hu, hf, hs] at h
            exact Or.inr (Or.inr (Or.inr ⟨resp, rfl, h.1, h.1 ▸ hs⟩))
          · exfalso
            simp only [relay, ht, hu, hf] at h
            rw [if_neg hs] at h
            rcases hm : mediaRedirects (pyOrStr
                (hGet resp.headers "Content-Type")
                "application/octet-stream") with _ | _
            · simp [hm] at h
              cases m <;> simp at h
            · simp [hm] at h


/-- C5 witness: an unknown `track_id` yields the 404, and a concrete
unreachable origin (fetch raises) yields the 502. -/
theorem relay_error_statuses_witness :
    relay [] none Method.get none ⟨none, fun _ => none⟩ "t"
      = RelayResult.httpError 404 "Unknown track_id"
    ∧ relay [("t1", exTrack)] (some "http://o") Method.get none
        ⟨none, fun _ => none⟩ "t1"
      = RelayResult.httpError 502 "Upstream fetch failed" :=
  ⟨(relay_error_statuses [] none Method.get none ⟨none, fun _ => none⟩
      "t").1 rfl,
   (relay_error_statuses [("t1", exTrack)] (some "http://o") Method.get
      none ⟨none, fun _ => none⟩ "t1").2.2.1 exTrack
      "http://o/Music/a.mp3" (by decide) (by decide) rfl⟩

theorem decDigitChar_toNat : ∀ d : Fin 10,
    (decDigitChar d.val).toNat = 48 + d.val := by decide

theorem decVal_aux : ∀ (ds : List Nat) (acc : Nat), (∀ d ∈ ds, d < 10) →
    List.foldl (fun a c => 10 * a + (c.toNat - 48)) acc
        ((ds.reverse).map decDigitChar)
      = acc * 10 ^ ds.length + Nat.ofDigits 10 ds := by
  intro ds
  induction ds with
  | nil => intro acc _; simp [Nat.ofDigits]
  | cons d rest ih =>
      intro acc h
      have hd : d < 10 := h d (List.mem_cons_self d rest)
      have hrest : ∀ x ∈ rest, x < 10 :=
        fun x hx => h x (List.mem_cons_of_mem d hx)
      have hchar : (decDigitChar d).toNat = 48 + d :=
        decDigitChar_toNat ⟨d, hd⟩
      rw [List.reverse_cons, List.map_append, List.foldl_append,
        ih acc hrest]
      simp only [List.map_cons, List.map_nil, List.foldl_cons,
        List.foldl_nil, hchar, Nat.ofDigits_cons, List.length_cons]
      have h48 : 48 + d - 48 = d := by omega
      rw [h48, pow_succ]
      ring

theorem decVal_decStr (n : Nat) : decVal (decStr n).data = n := by
  by_cases h0 : n = 0
  · subst h0; decide
  · unfold decStr
    rw [if_neg h0]
    have := decVal_aux (Nat.digits 10 n) 0
      (fun d hd => Nat.digits_lt_base (by norm_num) hd)
    simpa [decVal, Nat.ofDigits_digits] using this

theorem decStr_digit_bytes (n : Nat) :
    ∀ c ∈ (decStr n).data, 48 ≤ c.toNat ∧ c.toNat ≤ 57 := by
  by_cases h0 : n = 0
  · subst h0; decide
  · unfold decStr
    rw [if_neg h0]
    intro c hc
    rcases List.mem_map.mp hc with ⟨d, hd, hdc⟩
    have hd10 : d < 10 :=
      Nat.digits_lt_base (by norm_num) (List.mem_reverse.mp hd)
    have := decDigitChar_toNat ⟨d, hd10⟩
    subst hdc
    simp only [this]
    omega

theorem utf8Char_ascii (c : Char) (h : c.toNat < 128) :
    utf8Char c = [c.toNat] := by
  simp [utf8Char, h]

theorem flatMap_utf8_ascii : ∀ (l : List Char),
    (∀ c ∈ l, c.toNat < 128) → l.flatMap utf8Char = l.map Char.toNat := by
  intro l
  induction l with
  | nil => intro _; simp
  | cons c rest ih =>
      intro h
      have hc : c.toNat < 128 := h c (List.mem_cons_self c rest)
      have hrest := ih (fun x hx => h x (List.mem_cons_of_mem c hx))
      simp [utf8Char_ascii c hc, hrest]

theorem utf8Bytes_of_digits (n : Nat) :
    utf8Bytes (decStr n) = (decStr n).data.map Char.toNat := by
  unfold utf8Bytes
  exact flatMap_utf8_ascii (decStr n).data
    (fun c hc => by have := decStr_digit_bytes n c hc; omega)

theorem sep_split_unique {α : Type} (sep : α) :
    ∀ (a a' b b' : List α), sep ∉ a → sep ∉ a' →
      a ++ sep :: b = a' ++ sep :: b' → a = a' ∧ b = b' := by
  intro a
  induction a with
  | nil =>
      intro a' b b' _ ha' h
      cases a' with
      | nil => simpa using h
      | cons y u =>
          simp only [List.nil_append, List.cons_append,
            List.cons.injEq] at h
          exact absurd (h.1 ▸ List.mem_cons_self y u) ha'
  | cons x t ih =>
      intro a' b b' ha ha' h
      cases a' with
      | nil =>
          simp only [List.nil_append, List.cons_append,
            List.cons.injEq] at h
          exact absurd (h.1 ▸ List.mem_cons_self x t) ha
      | cons y u =>
          simp only [List.cons_append, List.cons.injEq] at h
          have ht : sep ∉ t := fun hm => ha (List.mem_cons_of_mem x hm)
          have hu : sep ∉ u := fun hm => ha' (List.mem_cons_of_mem y hm)
          have := ih u b b' ht hu h.2
          exact ⟨by rw [h.1, this.1], this.2⟩

theorem decValBytes_utf8_decStr (n : Nat) :
    decValBytes (utf8Bytes (decStr n)) = n := by
  rw [utf8Bytes_of_digits]
  unfold decValBytes
  rw [List.foldl_map]
  exact decVal_decStr n

theorem sep_not_mem_digit_bytes (n : Nat) :
    (124 : Nat) ∉ (utf8Bytes (decStr n)).reverse := by
  rw [List.mem_reverse, utf8Bytes_of_digits]
  intro hm
  rcases List.mem_map.mp hm with ⟨c, hc, hcv⟩
  have := decStr_digit_bytes n c hc
  omega

theorem trackIdBytes_inj_right (p : String) (s m s' m' : Nat)
    (h : trackIdBytes p s m = trackIdBytes p s' m') : s = s' ∧ m = m' := by
  have hshape : ∀ (a b : Nat), trackIdBytes p a b
      = utf8Bytes p ++ 124 ::
          (utf8Bytes (decStr a) ++ 124 :: utf8Bytes (decStr b)) := by
    intro a b; simp [trackIdBytes]
  rw [hshape, hshape] at h
  have hrev := congrArg List.reverse h
  simp only [List.reverse_append, List.reverse_cons, List.append_assoc,
    List.singleton_append, List.nil_append] at hrev
  obtain ⟨h1, h2⟩ := sep_split_unique 124 _ _ _ _
    (sep_not_mem_digit_bytes m) (sep_not_mem_digit_bytes m') hrev
  obtain ⟨h3, _⟩ := sep_split_unique 124 _ _ _ _
    (sep_not_mem_digit_bytes s) (sep_not_mem_digit_bytes s') h2
  have hs : utf8Bytes (decStr s) = utf8Bytes (decStr s') := by
    have := congrArg List.reverse h3
    simpa using this
  have hm : utf8Bytes (decStr m) = utf8Bytes (decStr m') := by
    have := congrArg List.reverse h1
    simpa using this
  constructor
  · have := congrArg decValBytes hs
    rwa [decValBytes_utf8_decStr, decValBytes_utf8_decStr] at this
  · have := congrArg decValBytes hm
    rwa [decValBytes_utf8_decStr, decValBytes_utf8_decStr] at this

/-- C3: `_track_id` is a pure function of `(path, size, mtime)` —
equal arguments give equal ids — it is exactly the SHA-1 hex digest of
the separator-delimited fingerprint input, and changing `size` or
`mtime` changes that input (so the id changes unless SHA-1 itself
collides on the two distinct byte strings). -/
theorem track_id_fingerprint (p : String) (s m s' m' : Nat)
    (h : s ≠ s' ∨ m ≠ m') :
    (∀ (q : String) (a b : Nat), p = q → s = a → m = b →
        track_id_of p s m = track_id_of q a b)
    ∧ track_id_of p s m = sha1Hex (trackIdBytes p s m)
    ∧ trackIdBytes p s m ≠ trackIdBytes p s' m' := by
  refine ⟨?_, rfl, ?_⟩
  · intro q a b hq ha hb
    rw [hq, ha, hb]
  · intro heq
    rcases trackIdBytes_inj_right p s m s' m' heq with ⟨hs, hm⟩
    rcases h with h | h
    · exact h hs
    · exact h hm

/-- C3 witness: same arguments repeat the id; changing the size from 1
to 2 changes the fingerprint input. -/
theorem track_id_fingerprint_witness :
    (∀ (q : String) (a b : Nat), "a" = q → 1 = a → 0 = b →
        track_id_of "a" 1 0 = track_id_of q a b)
    ∧ track_id_of "a" 1 0 = sha1Hex (trackIdBytes "a" 1 0)
    ∧ trackIdBytes "a" 1 0 ≠ trackIdBytes "a" 2 0 :=
  track_id_fingerprint "a" 1 0 2 0 (Or.inl (by decide))

end RadioTiker
